import Mathlib

set_option maxRecDepth 8000

/-!
Verification of the `collect_into_rc_slice` crate.

The crate builds reference-counted containers (`Rc<[T]>`, `Arc<[T]>`, `Rc<str>`,
`Arc<str>`) directly from an iterator in a single heap allocation, replicating the
standard library's `RcBox` / `ArcInner` memory layout: a header of two `usize`
counters (strong and weak) followed by alignment padding and then the payload.

The embedding below models a 64-bit host (`usize` = 8 bytes): the header struct
`RcBox<()>` / `ArcInner<()>` has size 16 and alignment 8, heap allocations are
byte lists, and `usize` wrapping arithmetic is taken modulo `2 ^ 64` where the
source uses wrapping operations.  Allocation itself is assumed to succeed
(allocator exhaustion is process-fatal in the source, never a returned value);
an out-of-bounds read or write through a raw pointer — undefined behaviour in
the source language — is modelled as `none`.

The allocator is modelled with its documented contract: the initial `alloc`
and every `realloc` succeed (allocator exhaustion is process-fatal in the
source, never a returned value), but a `Layout::from_size_align(..).unwrap()`
panic, a zero-size allocation, a `realloc` whose passed layout is not the
layout the block is currently allocated with, and a rounded size beyond
`isize::MAX` all leave the program without a handle and are modelled as
`none`.  `usize` arithmetic wraps modulo `2 ^ 64` (the release profile; the
debug-profile overflow panic likewise produces no handle).

`rc_slice.rs` / `arc_slice.rs` and `rc_str.rs` / `arc_str.rs` contain literally
the same algorithm twice (plain vs. atomic counters); on a 64-bit host
`AtomicUsize` is layout-identical to `usize`, so both variants of each
algorithm share one byte-level embedding here, with the `arc` entry point
defined as an alias of the `rc` one.
-/

/-- Number of values of a 64-bit machine word; `usize` wrapping arithmetic is
arithmetic modulo `W`. -/
def W : Nat := 2 ^ 64

/-- Embeds `padding_needed` (src/lib.rs lines 21-26, identically src/rc.rs and
src/arc.rs): `let padding = len.wrapping_add(align).wrapping_sub(1) & !align.wrapping_sub(1);
padding.wrapping_sub(len)`.  `wrapping_add`/`wrapping_sub` are modulo `W`; `!x`
on a 64-bit word with `x < W` is `(W - 1) - x`. -/
def padding_needed (len align : Nat) : Nat :=
  (Nat.land ((len + align + (W - 1)) % W) ((W - 1) - (align + (W - 1)) % W)
    + (W - len % W)) % W

/-- Embeds `data_offset::<T>` (src/lib.rs lines 16-19, identically src/rc.rs and
src/arc.rs): `Layout::new::<RcBox<()>>()` has size 16 and alignment 8 on a
64-bit host (two `usize` fields, `repr(C)`, zero-sized `data`), so the payload
offset is `16 + padding_needed(16, align_of::<T>())`.  The parameter `alignT`
stands for `mem::align_of::<T>()`. -/
def data_offset (alignT : Nat) : Nat :=
  16 + padding_needed 16 alignT

/-- `isize::MAX` on the 64-bit host: `Layout::from_size_align` fails, and the
allocator contract is violated, when a size rounded up to the alignment
exceeds this bound. -/
def isizeMax : Nat := 2 ^ 63 - 1

/-- State of the raw growable allocation during construction: the allocated
bytes (`buf`, whose length is the size last passed to `alloc`/`realloc`), the
number of bytes written so far (`len`, header included) and the capacity
variable `cap` of the source. -/
structure RawState where
  buf : List Nat
  len : Nat
  cap : Nat
deriving DecidableEq

/-- Writing `data` at byte offset `off` of an allocation: defined only when the
write stays inside the allocation; writing past the end is undefined behaviour
in the source and is modelled as `none`. -/
def writeBytes (buf : List Nat) (off : Nat) (data : List Nat) : Option (List Nat) :=
  if off + data.length ≤ buf.length then
    some (buf.take off ++ data ++ buf.drop (off + data.length))
  else none

/-- The byte-level effect of a successful `alloc::realloc` to `newSize`
bytes: the first `min newSize (length buf)` bytes are preserved, any newly
acquired bytes are uninitialised (modelled as 0 — they are never read before
being written).  The contract of the call itself is checked by `reallocCall`. -/
def reallocBytes (buf : List Nat) (newSize : Nat) : List Nat :=
  buf.take newSize ++ List.replicate (newSize - buf.length) 0

/-- A call `realloc(ptr, Layout::from_size_align(cap, 8).unwrap().pad_to_align(), newSize)`
exactly as every growth and trim site performs it (src/rc_slice.rs lines
78-80 and 99-100, identically in the other three files), with the layout
re-derived from the current `cap` variable.  `Layout::from_size_align(cap, 8).unwrap()`
panics when the rounded size exceeds `isize::MAX`; `realloc` itself requires
the passed layout to be the layout the block is currently allocated with,
`newSize > 0`, and the rounded `newSize` within `isize::MAX` — violating any
of these is undefined behaviour.  Panic and undefined behaviour alike leave
the program without a handle and are modelled as `none`; a null return
(allocator exhaustion) is process-fatal in the source and so modelled as
success. -/
def reallocCall (buf : List Nat) (cap newSize : Nat) : Option (List Nat) :=
  if cap + padding_needed cap 8 ≤ isizeMax
      ∧ cap + padding_needed cap 8 = buf.length
      ∧ 0 < newSize
      ∧ newSize + padding_needed newSize 8 ≤ isizeMax then
    some (reallocBytes buf newSize)
  else none

/-- The initial `alloc(Layout::from_size_align(cap, 8).unwrap().pad_to_align())`
(src/rc_slice.rs lines 53-54): the `unwrap` panics when the rounded size
exceeds `isize::MAX`, and `alloc` requires a layout of non-zero size; both
failure modes are modelled as `none`.  On success the block has the padded
size. -/
def allocCall (cap : Nat) : Option (List Nat) :=
  if 0 < cap ∧ cap + padding_needed cap 8 ≤ isizeMax then
    some (List.replicate (cap + padding_needed cap 8) 0)
  else none

/-- The growth step of every collect loop (e.g. src/rc_slice.rs lines 73-85):
if the next write of `need` bytes would exceed `cap`, the capacity is doubled
once (`cap *= 2`, wrapping `usize` multiplication) and the allocation
reallocated to the new `cap` under a layout re-derived from the old `cap`.
The source doubles exactly once and never checks that the doubled capacity
fits the pending write; after a previous growth the re-derived padded layout
need not match the current block size. -/
def ensureGrow (need : Nat) (s : RawState) : Option RawState :=
  if s.len + need > s.cap then
    (reallocCall s.buf s.cap ((2 * s.cap) % W)).map
      (fun b => { buf := b, len := s.len, cap := (2 * s.cap) % W })
  else some s

/-- One iteration of a collect loop: grow if needed, write `data` at offset
`len`, advance `len` by `need` bytes (`need` is `size_of::<T>()` for the slice
variants and `c.len_utf8()` for the str variants). -/
def appendData (data : List Nat) (need : Nat) (s : RawState) : Option RawState :=
  Option.bind (ensureGrow need s) (fun s1 =>
    match writeBytes s1.buf s1.len data with
    | some b => some { buf := b, len := s1.len + need, cap := s1.cap }
    | none => none)

/-- Little-endian bytes of one `usize` field (64-bit host). -/
def usizeBytes (n : Nat) : List Nat :=
  [n % 256, n / 256 % 256, n / 256 ^ 2 % 256, n / 256 ^ 3 % 256,
   n / 256 ^ 4 % 256, n / 256 ^ 5 % 256, n / 256 ^ 6 % 256, n / 256 ^ 7 % 256]

/-- Byte image of the 16-byte temporary `RcBox { strong_count: 1, weak_count: 1, data: () }`
(src/rc_slice.rs lines 63-67); `ArcInner { strong: AtomicUsize::new(1), weak:
AtomicUsize::new(1), data: () }` has the identical byte image. -/
def headerImage : List Nat :=
  usizeBytes 1 ++ usizeBytes 1

/-- Embeds the header write `ptr::copy_nonoverlapping(init, alloc, metadata)`
(src/rc_slice.rs line 69): `metadata` bytes are copied out of the 16-byte
header temporary.  If `metadata > 16` the copy reads past the end of the
temporary — undefined behaviour, modelled as `none`. -/
def writeHeader (metadata : Nat) (buf : List Nat) : Option (List Nat) :=
  if metadata ≤ 16 then writeBytes buf 0 (headerImage.take metadata) else none

/-- Embeds `char::len_utf8` for a scalar value `c` given as its code point. -/
def lenUtf8 (c : Nat) : Nat :=
  if c < 0x80 then 1
  else if c < 0x800 then 2
  else if c < 0x10000 then 3
  else 4

/-- Embeds `char::encode_utf8`: the UTF-8 byte sequence of a scalar value. -/
def encodeUtf8 (c : Nat) : List Nat :=
  if c < 0x80 then [c]
  else if c < 0x800 then
    [0xC0 ||| (c >>> 6), 0x80 ||| (Nat.land c 0x3F)]
  else if c < 0x10000 then
    [0xE0 ||| (c >>> 12), 0x80 ||| (Nat.land (c >>> 6) 0x3F), 0x80 ||| (Nat.land c 0x3F)]
  else
    [0xF0 ||| (c >>> 18), 0x80 ||| (Nat.land (c >>> 12) 0x3F),
     0x80 ||| (Nat.land (c >>> 6) 0x3F), 0x80 ||| (Nat.land c 0x3F)]

/-- The element loop of `collect_into_rc_slice` / `collect_into_arc_slice`
(src/rc_slice.rs lines 72-91, src/arc_slice.rs lines 66-85): for each item,
grow if `len + size > cap`, `ptr::write` the item's `size_of::<T>()`-byte
representation (`enc a`) at offset `len`, then `len += size`. -/
def sliceLoop (size : Nat) (enc : α → List Nat) : List α → RawState → Option RawState
  | [], s => some s
  | a :: rest, s =>
    match appendData (enc a) size s with
    | some t => sliceLoop size enc rest t
    | none => none

/-- The character loop of `collect_into_rc_str` / `collect_into_arc_str`
(src/rc_str.rs lines 108-129, src/arc_str.rs lines 65-86): for each scalar
value, grow if `len + len_utf8 > cap`, encode the scalar at offset `len`,
then set `len` to the new length. -/
def strLoop : List Nat → RawState → Option RawState
  | [], s => some s
  | c :: rest, s =>
    match appendData (encodeUtf8 c) (lenUtf8 c) s with
    | some t => strLoop rest t
    | none => none

/-- The trim step (src/rc_slice.rs lines 93-105 and identically the other three
files): if `cap > len`, reallocate down to `len + padding_needed(len, align)`
bytes, `align` being 8, the alignment of the header — again under a layout
re-derived from `cap`, which after a growth no longer matches the block. -/
def finishTrim (s : RawState) : Option RawState :=
  if s.cap > s.len then
    (reallocCall s.buf s.cap (s.len + padding_needed s.len 8)).map
      (fun b => { buf := b, len := s.len, cap := s.cap })
  else some s

/-- Embeds `collect_into_rc_slice` (src/rc_slice.rs lines 38-91) up to but not
including the trim: compute `metadata = data_offset::<T>()`, take the size
hint `(lower, upper)`, set `cap = upper.unwrap_or(lower) * size_of::<T>() + metadata`
(wrapping `usize` arithmetic) and `len = metadata`, allocate
`Layout::from_size_align(cap, 8).unwrap().pad_to_align()` bytes, copy the
header in, then run the element loop.  `size` is
`mem::size_of::<T>()`, `alignT` is `mem::align_of::<T>()` and `enc a` is the
in-memory byte representation of the item `a`. -/
def collectSliceRaw (size alignT : Nat) (enc : α → List Nat)
    (lower : Nat) (upper : Option Nat) (items : List α) : Option RawState :=
  Option.bind (allocCall ((upper.getD lower * size + data_offset alignT) % W))
    (fun buf0 => Option.bind (writeHeader (data_offset alignT) buf0)
      (fun buf1 => sliceLoop size enc items
        ⟨buf1, data_offset alignT, (upper.getD lower * size + data_offset alignT) % W⟩))

/-- The state of the allocation after the trim step of `collect_into_rc_slice`. -/
def collectSliceFin (size alignT : Nat) (enc : α → List Nat)
    (lower : Nat) (upper : Option Nat) (items : List α) : Option RawState :=
  (collectSliceRaw size alignT enc lower upper items).bind finishTrim

/-- Embeds the handle reconstruction of `collect_into_rc_slice`
(src/rc_slice.rs lines 107-115):
`ptr::slice_from_raw_parts(alloc.add(metadata) as *mut T, (len - metadata) / size_of::<T>())`
rebuilds the handle from the finished allocation; the result is the byte
content the handle dereferences to (`count * size` bytes starting at the
payload offset) together with the element count.  For a zero-sized `T` the
count expression divides by zero, which panics in the source — modelled as
`none`. -/
def sliceHandle (size alignT : Nat) (s : RawState) : Option (List Nat × Nat) :=
  if size = 0 then none
  else
    some (List.take ((s.len - data_offset alignT) / size * size)
            (List.drop (data_offset alignT) s.buf),
          (s.len - data_offset alignT) / size)

/-- Embeds the full `collect_into_rc_slice` (src/rc_slice.rs lines 38-115):
the construction followed by the handle reconstruction. -/
def collect_into_rc_slice (size alignT : Nat) (enc : α → List Nat)
    (lower : Nat) (upper : Option Nat) (items : List α) : Option (List Nat × Nat) :=
  Option.bind (collectSliceFin size alignT enc lower upper items) (sliceHandle size alignT)

/-- Embeds `collect_into_arc_slice` (src/arc_slice.rs lines 33-113).  The
algorithm is token-for-token the one of `collect_into_rc_slice`, with
`ArcInner` in place of `RcBox`; on a 64-bit host `ArcInner<()>` has the same
size-16 / align-8 layout and the same initial counter bytes, so the byte-level
embedding coincides. -/
def collect_into_arc_slice (size alignT : Nat) (enc : α → List Nat)
    (lower : Nat) (upper : Option Nat) (items : List α) : Option (List Nat × Nat) :=
  collect_into_rc_slice size alignT enc lower upper items

/-- Embeds `collect_into_rc_str` (src/rc_str.rs lines 75-152) up to but not
including the trim: `metadata = data_offset::<u8>()`, `cap = upper.unwrap_or(lower) + metadata`
(the hint counts bytes, `size_of::<u8>() = 1`), allocate, write the header,
run the character loop. -/
def collectStrRaw (lower : Nat) (upper : Option Nat) (cs : List Nat) : Option RawState :=
  Option.bind (allocCall ((upper.getD lower + data_offset 1) % W))
    (fun buf0 => Option.bind (writeHeader (data_offset 1) buf0)
      (fun buf1 => strLoop cs ⟨buf1, data_offset 1, (upper.getD lower + data_offset 1) % W⟩))

/-- The state of the allocation after the trim step of `collect_into_rc_str`. -/
def collectStrFin (lower : Nat) (upper : Option Nat) (cs : List Nat) : Option RawState :=
  (collectStrRaw lower upper cs).bind finishTrim

/-- Embeds the full `collect_into_rc_str` (src/rc_str.rs lines 75-152): run the
construction, then rebuild the handle via
`ptr::slice_from_raw_parts(alloc.add(metadata), len - metadata) as *const str`.
The result is the byte content of the `str` the handle dereferences to. -/
def collect_into_rc_str (lower : Nat) (upper : Option Nat) (cs : List Nat) : Option (List Nat) :=
  (collectStrFin lower upper cs).map
    (fun s => List.take (s.len - data_offset 1) (List.drop (data_offset 1) s.buf))

/-- Embeds `collect_into_arc_str` (src/arc_str.rs lines 32-109), token-for-token
the algorithm of `collect_into_rc_str` with the layout-identical `ArcInner`
header; the byte-level embedding coincides. -/
def collect_into_arc_str (lower : Nat) (upper : Option Nat) (cs : List Nat) : Option (List Nat) :=
  collect_into_rc_str lower upper cs

/-- Embeds the `IterRefCollectIntoRcStr` adapter (src/rc_str.rs lines 155-162):
`self.copied()` turns the iterator over `&char` into the iterator over the
copied scalar values (same sequence, same size hint) and delegates to the
by-value implementation. -/
def iterRef_collect_into_rc_str (lower : Nat) (upper : Option Nat) (cs : List Nat) :
    Option (List Nat) :=
  collect_into_rc_str lower upper (cs.map (fun c => c))

/-- Embeds the `IterRefMutCollectIntoRcStr` adapter (src/rc_str.rs lines
164-171): `self.map(|c| *c)` dereferences each `&mut char` (same sequence,
same size hint) and delegates to the by-value implementation. -/
def iterRefMut_collect_into_rc_str (lower : Nat) (upper : Option Nat) (cs : List Nat) :
    Option (List Nat) :=
  collect_into_rc_str lower upper (cs.map (fun c => c))

/-- Little-endian value of a list of bytes (reading one stored `usize`). -/
def decodeUsize (bs : List Nat) : Nat :=
  bs.foldr (fun b acc => b + 256 * acc) 0

/-- The `strong_count` field stored in the header of a finished allocation. -/
def storedStrong (s : RawState) : Nat :=
  decodeUsize (s.buf.take 8)

/-- The `weak_count` field stored in the header of a finished allocation. -/
def storedWeak (s : RawState) : Nat :=
  decodeUsize ((s.buf.drop 8).take 8)

/-- Modelled from the spec: the strong count reported by the public query
`Rc::strong_count` / `Arc::strong_count` of the host standard library (an
external collaborator, not part of this crate) is the stored strong counter. -/
def reportedStrongCount (s : RawState) : Nat :=
  storedStrong s

/-- Modelled from the spec: the weak count reported by the public query
`Rc::weak_count` / `Arc::weak_count` of the host standard library is the
stored weak counter minus one — the stored count includes the implicit weak
reference held collectively by all strong references. -/
def reportedWeakCount (s : RawState) : Nat :=
  storedWeak s - 1

/-! ### Basic facts about the byte-buffer primitives -/

lemma reallocBytes_length (b : List Nat) (n : Nat) : (reallocBytes b n).length = n := by
  simp only [reallocBytes, List.length_append, List.length_take, List.length_replicate]
  omega

lemma reallocBytes_take (b : List Nat) (n m : Nat) (hmn : m ≤ n) (hmb : m ≤ b.length) :
    (reallocBytes b n).take m = b.take m := by
  unfold reallocBytes
  rw [List.take_append_of_le_length (by simp only [List.length_take]; omega),
    List.take_take, Nat.min_eq_left hmn]

lemma reallocBytes_of_le (b : List Nat) (n : Nat) (h : n ≤ b.length) :
    reallocBytes b n = b.take n := by
  show b.take n ++ List.replicate (n - b.length) 0 = b.take n
  rw [Nat.sub_eq_zero_of_le h]
  simp

lemma bind_some_eq {α β : Type} (a : α) (f : α → Option β) :
    Option.bind (some a) f = f a := rfl

lemma writeBytes_of_le {b d : List Nat} {off : Nat} (h : off + d.length ≤ b.length) :
    writeBytes b off d = some (b.take off ++ d ++ b.drop (off + d.length)) := by
  unfold writeBytes
  rw [if_pos h]

lemma writeBytes_some {b d b' : List Nat} {off : Nat} (h : writeBytes b off d = some b') :
    off + d.length ≤ b.length ∧ b' = b.take off ++ d ++ b.drop (off + d.length) := by
  unfold writeBytes at h
  split at h
  · exact ⟨by assumption, (Option.some_injective _ h).symm⟩
  · exact absurd h (by simp)

lemma writeBytes_length {b d b' : List Nat} {off : Nat} (h : writeBytes b off d = some b') :
    b'.length = b.length := by
  obtain ⟨hle, rfl⟩ := writeBytes_some h
  simp only [List.length_append, List.length_take, List.length_drop]
  omega

lemma writeBytes_take_of_le {b d b' : List Nat} {off m : Nat} (h : writeBytes b off d = some b')
    (hm : m ≤ off) : b'.take m = b.take m := by
  obtain ⟨hle, rfl⟩ := writeBytes_some h
  rw [List.append_assoc, List.take_append_of_le_length (by simp only [List.length_take]; omega),
    List.take_take, Nat.min_eq_left hm]

/-! ### Arithmetic characterisation of `padding_needed` -/

lemma testBit_pow_mul (k m i : Nat) :
    Nat.testBit (2 ^ k * m) i = if i < k then false else Nat.testBit m (i - k) := by
  by_cases h : i < k
  · rw [if_pos h, Nat.testBit_to_div_mod]
    have hk : 2 ^ k = 2 ^ i * (2 * 2 ^ (k - i - 1)) := by
      rw [← Nat.pow_succ', ← pow_add]
      congr 1
      omega
    have hdiv : 2 ^ k * m / 2 ^ i = 2 * (2 ^ (k - i - 1) * m) := by
      rw [hk, Nat.mul_assoc, Nat.mul_div_cancel_left _ (Nat.pos_pow_of_pos i (by omega)),
        Nat.mul_assoc]
    rw [hdiv, Nat.mul_mod_right]
    simp
  · rw [if_neg h, Nat.testBit_to_div_mod, Nat.testBit_to_div_mod]
    have hk : 2 ^ i = 2 ^ k * 2 ^ (i - k) := by
      rw [← pow_add]
      congr 1
      omega
    rw [hk, Nat.mul_div_mul_left _ _ (Nat.pos_pow_of_pos k (by omega))]

lemma land_mask_eq (x k : Nat) (hx : x < 2 ^ 64) (hk : k ≤ 64) :
    Nat.land x (2 ^ 64 - 2 ^ k) = x / 2 ^ k * 2 ^ k := by
  have hsplit : 2 ^ 64 - 2 ^ k = 2 ^ k * (2 ^ (64 - k) - 1) := by
    rw [Nat.mul_sub_one, ← pow_add]
    congr 2
    omega
  have hdiv : 2 ^ k * (x / 2 ^ k) = x / 2 ^ k * 2 ^ k := Nat.mul_comm _ _
  apply Nat.eq_of_testBit_eq
  intro i
  rw [show Nat.land x (2 ^ 64 - 2 ^ k) = x &&& (2 ^ 64 - 2 ^ k) from rfl, Nat.testBit_land,
    hsplit, testBit_pow_mul, ← hdiv, testBit_pow_mul]
  by_cases hik : i < k
  · simp [hik]
  · rw [if_neg hik, if_neg hik, Nat.testBit_two_pow_sub_one]
    by_cases hi64 : i < 64
    · have heq : Nat.testBit (x / 2 ^ k) (i - k) = Nat.testBit x i := by
        rw [Nat.testBit_to_div_mod, Nat.testBit_to_div_mod, Nat.div_div_eq_div_mul, ← pow_add,
          show k + (i - k) = i from by omega]
      rw [heq, decide_eq_true (by omega : i - k < 64 - k)]
      simp
    · have h1 : Nat.testBit x i = false :=
        Nat.testBit_lt_two_pow (lt_of_lt_of_le hx (Nat.pow_le_pow_right (by omega) (by omega)))
      have h2 : Nat.testBit (x / 2 ^ k) (i - k) = false := by
        apply Nat.testBit_lt_two_pow
        rw [Nat.div_lt_iff_lt_mul (Nat.pos_pow_of_pos k (by omega)), ← pow_add]
        exact lt_of_lt_of_le hx (Nat.pow_le_pow_right (by omega) (by omega))
      rw [h1, h2]
      simp

lemma padding_needed_unwrapped (len a : Nat) (ha : 1 ≤ a) (haW : a ≤ W) (hlen : len < W) :
    padding_needed len a = (Nat.land ((len + a - 1) % W) (W - a) + (W - len)) % W := by
  unfold padding_needed
  have h1 : (a + (W - 1)) % W = a - 1 := by
    rw [show a + (W - 1) = (a - 1) + W from by omega, Nat.add_mod_right,
      Nat.mod_eq_of_lt (by omega)]
  have h2 : (len + a + (W - 1)) % W = (len + a - 1) % W := by
    rw [show len + a + (W - 1) = (len + a - 1) + W from by omega, Nat.add_mod_right]
  have h3 : len % W = len := Nat.mod_eq_of_lt hlen
  rw [h1, h2, h3, show W - 1 - (a - 1) = W - a from by omega]

lemma padding_needed_spec (len k : Nat) (hlen : len < W) (hk : k ≤ 64) :
    (len + padding_needed len (2 ^ k)) % 2 ^ k = 0 ∧ padding_needed len (2 ^ k) < 2 ^ k := by
  have hW : W = 2 ^ 64 := rfl
  have ha : 1 ≤ 2 ^ k := Nat.one_le_two_pow
  have haW : 2 ^ k ≤ W := by rw [hW]; exact Nat.pow_le_pow_right (by omega) hk
  have hdvd : 2 ^ k ∣ W := by rw [hW]; exact pow_dvd_pow 2 hk
  have hWpos : (0 : Nat) < W := by omega
  rw [padding_needed_unwrapped len (2 ^ k) ha haW hlen]
  have hxlt : (len + 2 ^ k - 1) % W < W := Nat.mod_lt _ hWpos
  rw [show W - 2 ^ k = 2 ^ 64 - 2 ^ k from by rw [hW]]
  rw [land_mask_eq _ k (by rw [← hW]; exact hxlt) hk]
  by_cases hc : len + 2 ^ k - 1 < W
  · rw [Nat.mod_eq_of_lt hc]
    have hdm : 2 ^ k * ((len + 2 ^ k - 1) / 2 ^ k) + (len + 2 ^ k - 1) % 2 ^ k
        = len + 2 ^ k - 1 := Nat.div_add_mod _ _
    have hmlt : (len + 2 ^ k - 1) % 2 ^ k < 2 ^ k := Nat.mod_lt _ (by omega)
    have hm1 : (len + 2 ^ k - 1) / 2 ^ k * 2 ^ k + (len + 2 ^ k - 1) % 2 ^ k
        = len + 2 ^ k - 1 := by rw [Nat.mul_comm]; exact hdm
    have hmod : (len + 2 ^ k - 1) / 2 ^ k * 2 ^ k % 2 ^ k = 0 := Nat.mul_mod_left _ _
    have heq : ((len + 2 ^ k - 1) / 2 ^ k * 2 ^ k + (W - len)) % W
        = (len + 2 ^ k - 1) / 2 ^ k * 2 ^ k - len := by
      rw [show (len + 2 ^ k - 1) / 2 ^ k * 2 ^ k + (W - len)
          = ((len + 2 ^ k - 1) / 2 ^ k * 2 ^ k - len) + W from by omega, Nat.add_mod_right,
        Nat.mod_eq_of_lt (by omega)]
    rw [heq]
    constructor
    · rw [show len + ((len + 2 ^ k - 1) / 2 ^ k * 2 ^ k - len)
          = (len + 2 ^ k - 1) / 2 ^ k * 2 ^ k from by omega, hmod]
    · omega
  · have hx : (len + 2 ^ k - 1) % W = len + 2 ^ k - 1 - W := by
      rw [Nat.mod_eq_sub_mod (by omega), Nat.mod_eq_of_lt (by omega)]
    have hlen1 : 1 ≤ len := by omega
    rw [hx, Nat.div_eq_of_lt (by omega : len + 2 ^ k - 1 - W < 2 ^ k), Nat.zero_mul,
      Nat.zero_add, Nat.mod_eq_of_lt (by omega : W - len < W)]
    constructor
    · rw [show len + (W - len) = W from by omega]
      obtain ⟨c, hc2⟩ := hdvd
      rw [hc2, Nat.mul_mod_right]
    · omega

lemma padding_needed_min (len k q : Nat) (hlen : len < W) (hk : k ≤ 64)
    (hq : (len + q) % 2 ^ k = 0) : padding_needed len (2 ^ k) ≤ q := by
  obtain ⟨h0, hlt⟩ := padding_needed_spec len k hlen hk
  have hap : (0 : Nat) < 2 ^ k := Nat.pos_pow_of_pos _ (by omega)
  have hr : len % 2 ^ k < 2 ^ k := Nat.mod_lt _ hap
  rw [Nat.add_mod, Nat.mod_eq_of_lt hlt] at h0
  rw [Nat.add_mod] at hq
  have hqlt : q % 2 ^ k < 2 ^ k := Nat.mod_lt _ hap
  have hcase1 : len % 2 ^ k + padding_needed len (2 ^ k) = 0
      ∨ len % 2 ^ k + padding_needed len (2 ^ k) = 2 ^ k := by
    rcases Nat.lt_or_ge (len % 2 ^ k + padding_needed len (2 ^ k)) (2 ^ k) with h | h
    · left; rwa [Nat.mod_eq_of_lt h] at h0
    · right
      rw [Nat.mod_eq_sub_mod h, Nat.mod_eq_of_lt (by omega)] at h0
      omega
  have hcase2 : len % 2 ^ k + q % 2 ^ k = 0 ∨ len % 2 ^ k + q % 2 ^ k = 2 ^ k := by
    rcases Nat.lt_or_ge (len % 2 ^ k + q % 2 ^ k) (2 ^ k) with h | h
    · left; rwa [Nat.mod_eq_of_lt h] at hq
    · right
      rw [Nat.mod_eq_sub_mod h, Nat.mod_eq_of_lt (by omega)] at hq
      omega
  have hqm : q % 2 ^ k ≤ q := Nat.mod_le _ _
  omega

/-! ### The guarded allocator calls -/

lemma isizeMax_lt_W : isizeMax < W := by decide

lemma padding8_lt {c : Nat} (hc : c < W) : padding_needed c 8 < 8 := by
  have h := (padding_needed_spec c 3 hc (by omega)).2
  norm_num at h
  exact h

lemma double_no_wrap {c : Nat} (h : c + padding_needed c 8 ≤ isizeMax) :
    (2 * c) % W = 2 * c := by
  have h1 : c ≤ isizeMax := le_trans (Nat.le_add_right _ _) h
  have h2 : isizeMax = 9223372036854775807 := by decide
  have h3 : W = 18446744073709551616 := by decide
  exact Nat.mod_eq_of_lt (by omega)

lemma reallocCall_some {buf b : List Nat} {cap newSize : Nat}
    (h : reallocCall buf cap newSize = some b) :
    cap + padding_needed cap 8 ≤ isizeMax ∧ cap + padding_needed cap 8 = buf.length ∧
    0 < newSize ∧ newSize + padding_needed newSize 8 ≤ isizeMax ∧
    b = reallocBytes buf newSize := by
  replace h : (if cap + padding_needed cap 8 ≤ isizeMax
      ∧ cap + padding_needed cap 8 = buf.length
      ∧ 0 < newSize
      ∧ newSize + padding_needed newSize 8 ≤ isizeMax then
    some (reallocBytes buf newSize)
  else none) = some b := h
  by_cases hc : cap + padding_needed cap 8 ≤ isizeMax
      ∧ cap + padding_needed cap 8 = buf.length
      ∧ 0 < newSize
      ∧ newSize + padding_needed newSize 8 ≤ isizeMax
  · rw [if_pos hc] at h
    exact ⟨hc.1, hc.2.1, hc.2.2.1, hc.2.2.2, (Option.some_injective _ h).symm⟩
  · rw [if_neg hc] at h
    exact absurd h (by simp)

lemma reallocCall_eq {buf : List Nat} {cap newSize : Nat}
    (h1 : cap + padding_needed cap 8 ≤ isizeMax) (h2 : cap + padding_needed cap 8 = buf.length)
    (h3 : 0 < newSize) (h4 : newSize + padding_needed newSize 8 ≤ isizeMax) :
    reallocCall buf cap newSize = some (reallocBytes buf newSize) := by
  show (if cap + padding_needed cap 8 ≤ isizeMax
      ∧ cap + padding_needed cap 8 = buf.length
      ∧ 0 < newSize
      ∧ newSize + padding_needed newSize 8 ≤ isizeMax then
    some (reallocBytes buf newSize)
  else none) = _
  rw [if_pos ⟨h1, h2, h3, h4⟩]

lemma allocCall_some {b : List Nat} {cap : Nat} (h : allocCall cap = some b) :
    0 < cap ∧ cap + padding_needed cap 8 ≤ isizeMax ∧
    b = List.replicate (cap + padding_needed cap 8) 0 := by
  replace h : (if 0 < cap ∧ cap + padding_needed cap 8 ≤ isizeMax then
      some (List.replicate (cap + padding_needed cap 8) 0)
    else none) = some b := h
  by_cases hc : 0 < cap ∧ cap + padding_needed cap 8 ≤ isizeMax
  · rw [if_pos hc] at h
    exact ⟨hc.1, hc.2, (Option.some_injective _ h).symm⟩
  · rw [if_neg hc] at h
    exact absurd h (by simp)

lemma allocCall_eq {cap : Nat} (h1 : 0 < cap) (h2 : cap + padding_needed cap 8 ≤ isizeMax) :
    allocCall cap = some (List.replicate (cap + padding_needed cap 8) 0) := by
  show (if 0 < cap ∧ cap + padding_needed cap 8 ≤ isizeMax then
      some (List.replicate (cap + padding_needed cap 8) 0)
    else none) = _
  rw [if_pos ⟨h1, h2⟩]

/-! ### The header region is never overwritten -/

lemma ensureGrow_front {need : Nat} {s e : RawState} (h : ensureGrow need s = some e)
    (h1 : 16 ≤ s.len) (h3 : 16 ≤ s.buf.length) :
    e.len = s.len ∧ 16 ≤ e.buf.length ∧ e.buf.take 16 = s.buf.take 16 := by
  replace h : (if s.len + need > s.cap then
      (reallocCall s.buf s.cap ((2 * s.cap) % W)).map
        (fun b => ({ buf := b, len := s.len, cap := (2 * s.cap) % W } : RawState))
    else some s) = some e := h
  by_cases hg : s.len + need > s.cap
  · rw [if_pos hg] at h
    obtain ⟨b, hrc, hbe⟩ := Option.map_eq_some'.mp h
    obtain ⟨g1, g2, g3, g4, rfl⟩ := reallocCall_some hrc
    subst hbe
    have hnw : (2 * s.cap) % W = 2 * s.cap := double_no_wrap g1
    have hp : padding_needed s.cap 8 < 8 := padding8_lt (by
      have := isizeMax_lt_W
      omega)
    have hc16 : 16 ≤ (2 * s.cap) % W := by
      rw [hnw]
      omega
    refine ⟨rfl, ?_, ?_⟩
    · show 16 ≤ (reallocBytes s.buf ((2 * s.cap) % W)).length
      rw [reallocBytes_length]
      exact hc16
    · show (reallocBytes s.buf ((2 * s.cap) % W)).take 16 = s.buf.take 16
      exact reallocBytes_take _ _ _ hc16 h3
  · rw [if_neg hg] at h
    obtain rfl := Option.some_injective _ h
    exact ⟨rfl, h3, rfl⟩

lemma appendData_front {d : List Nat} {need : Nat} {s t : RawState}
    (h : appendData d need s = some t) (h1 : 16 ≤ s.len) (h3 : 16 ≤ s.buf.length) :
    t.buf.take 16 = s.buf.take 16 ∧ 16 ≤ t.len ∧ 16 ≤ t.buf.length := by
  replace h : Option.bind (ensureGrow need s) (fun s1 =>
      match writeBytes s1.buf s1.len d with
      | some b => some ({ buf := b, len := s1.len + need, cap := s1.cap } : RawState)
      | none => none) = some t := h
  obtain ⟨e, heg, hw⟩ := Option.bind_eq_some.mp h
  obtain ⟨g1, g2, g3⟩ := ensureGrow_front heg h1 h3
  cases hwb : writeBytes e.buf e.len d with
  | none =>
    rw [hwb] at hw
    exact absurd hw (by simp)
  | some b =>
    rw [hwb] at hw
    replace hw : ({ buf := b, len := e.len + need, cap := e.cap } : RawState) = t :=
      Option.some_injective _ hw
    subst hw
    refine ⟨?_, ?_, ?_⟩
    · show b.take 16 = s.buf.take 16
      rw [writeBytes_take_of_le hwb (by omega), g3]
    · show 16 ≤ e.len + need
      omega
    · show 16 ≤ b.length
      rw [writeBytes_length hwb]
      exact g2

lemma sliceLoop_front (size : Nat) (enc : α → List Nat) :
    ∀ (items : List α) (s t : RawState), sliceLoop size enc items s = some t →
      16 ≤ s.len → 16 ≤ s.buf.length →
      t.buf.take 16 = s.buf.take 16 ∧ 16 ≤ t.len ∧ 16 ≤ t.buf.length := by
  intro items
  induction items with
  | nil =>
    intro s t h hm1 hm3
    obtain rfl : s = t := Option.some_injective _ h
    exact ⟨rfl, hm1, hm3⟩
  | cons a rest ih =>
    intro s t h hm1 hm3
    simp only [sliceLoop] at h
    cases hap : appendData (enc a) size s with
    | none =>
      rw [hap] at h
      exact absurd h (by simp)
    | some u =>
      rw [hap] at h
      obtain ⟨f1, f2, f3⟩ := appendData_front hap hm1 hm3
      obtain ⟨g1, g2, g3⟩ := ih u t h f2 f3
      exact ⟨by rw [g1, f1], g2, g3⟩

lemma strLoop_front :
    ∀ (cs : List Nat) (s t : RawState), strLoop cs s = some t →
      16 ≤ s.len → 16 ≤ s.buf.length →
      t.buf.take 16 = s.buf.take 16 ∧ 16 ≤ t.len ∧ 16 ≤ t.buf.length := by
  intro cs
  induction cs with
  | nil =>
    intro s t h hm1 hm3
    obtain rfl : s = t := Option.some_injective _ h
    exact ⟨rfl, hm1, hm3⟩
  | cons c rest ih =>
    intro s t h hm1 hm3
    simp only [strLoop] at h
    cases hap : appendData (encodeUtf8 c) (lenUtf8 c) s with
    | none =>
      rw [hap] at h
      exact absurd h (by simp)
    | some u =>
      rw [hap] at h
      obtain ⟨f1, f2, f3⟩ := appendData_front hap hm1 hm3
      obtain ⟨g1, g2, g3⟩ := ih u t h f2 f3
      exact ⟨by rw [g1, f1], g2, g3⟩

lemma finishTrim_front {s u : RawState} (h : finishTrim s = some u)
    (hm1 : 16 ≤ s.len) (hm2 : 16 ≤ s.buf.length) :
    u.buf.take 16 = s.buf.take 16 ∧ u.len = s.len := by
  replace h : (if s.cap > s.len then
      (reallocCall s.buf s.cap (s.len + padding_needed s.len 8)).map
        (fun b => ({ buf := b, len := s.len, cap := s.cap } : RawState))
    else some s) = some u := h
  by_cases hg : s.cap > s.len
  · rw [if_pos hg] at h
    obtain ⟨b, hrc, hbe⟩ := Option.map_eq_some'.mp h
    obtain ⟨g1, g2, g3, g4, rfl⟩ := reallocCall_some hrc
    subst hbe
    constructor
    · show (reallocBytes s.buf (s.len + padding_needed s.len 8)).take 16 = s.buf.take 16
      exact reallocBytes_take _ _ _ (by omega) hm2
    · rfl
  · rw [if_neg hg] at h
    obtain rfl := Option.some_injective _ h
    exact ⟨rfl, rfl⟩

/-! ### Destructuring successful runs -/

lemma headerImage_length : headerImage.length = 16 := by decide

lemma take16_headerImage (X : List Nat) : List.take 16 (headerImage ++ X) = headerImage := by
  have h := List.take_left headerImage X
  rwa [headerImage_length] at h

lemma drop16_headerImage (X : List Nat) : List.drop 16 (headerImage ++ X) = X := by
  have h := List.drop_left headerImage X
  rwa [headerImage_length] at h

lemma collectSliceRaw_header {α : Type} {size alignT : Nat} {enc : α → List Nat} {lower : Nat}
    {upper : Option Nat} {items : List α} {t : RawState}
    (h : collectSliceRaw size alignT enc lower upper items = some t) :
    t.buf.take 16 = headerImage ∧ 16 ≤ t.len ∧ 16 ≤ t.buf.length := by
  replace h : Option.bind (allocCall ((upper.getD lower * size + data_offset alignT) % W))
      (fun buf0 => Option.bind (writeHeader (data_offset alignT) buf0)
        (fun buf1 => sliceLoop size enc items
          ⟨buf1, data_offset alignT, (upper.getD lower * size + data_offset alignT) % W⟩))
      = some t := h
  obtain ⟨buf0, hac, h2⟩ := Option.bind_eq_some.mp h
  replace h2 : Option.bind (writeHeader (data_offset alignT) buf0)
      (fun buf1 => sliceLoop size enc items
        ⟨buf1, data_offset alignT, (upper.getD lower * size + data_offset alignT) % W⟩)
      = some t := h2
  obtain ⟨buf1, hwh, hloop⟩ := Option.bind_eq_some.mp h2
  replace hloop : sliceLoop size enc items
      ⟨buf1, data_offset alignT, (upper.getD lower * size + data_offset alignT) % W⟩
      = some t := hloop
  replace hwh : (if data_offset alignT ≤ 16 then
      writeBytes buf0 0 (headerImage.take (data_offset alignT))
    else none) = some buf1 := hwh
  by_cases hcond : data_offset alignT ≤ 16
  · rw [if_pos hcond] at hwh
    have h16 : data_offset alignT = 16 := by
      have hge : 16 ≤ data_offset alignT := by
        show 16 ≤ 16 + padding_needed 16 alignT
        omega
      omega
    rw [h16] at hwh hloop
    rw [show headerImage.take 16 = headerImage from by decide] at hwh
    obtain ⟨hle, hbuf1⟩ := writeBytes_some hwh
    simp only [List.take_zero, List.nil_append, Nat.zero_add, headerImage_length] at hle hbuf1
    have htk : buf1.take 16 = headerImage := by
      rw [hbuf1]
      exact take16_headerImage _
    have hlen1 : 16 ≤ buf1.length := by
      rw [writeBytes_length hwh]
      exact hle
    obtain ⟨f1, f2, f3⟩ := sliceLoop_front size enc items
      ⟨buf1, 16, (upper.getD lower * size + 16) % W⟩ t hloop (le_refl 16) hlen1
    exact ⟨by rw [f1, htk], f2, f3⟩
  · rw [if_neg hcond] at hwh
    exact absurd hwh (by simp)

lemma collectStrRaw_header {lower : Nat} {upper : Option Nat} {cs : List Nat} {t : RawState}
    (h : collectStrRaw lower upper cs = some t) :
    t.buf.take 16 = headerImage ∧ 16 ≤ t.len ∧ 16 ≤ t.buf.length := by
  replace h : Option.bind (allocCall ((upper.getD lower + data_offset 1) % W))
      (fun buf0 => Option.bind (writeHeader (data_offset 1) buf0)
        (fun buf1 => strLoop cs ⟨buf1, data_offset 1, (upper.getD lower + data_offset 1) % W⟩))
      = some t := h
  obtain ⟨buf0, hac, h2⟩ := Option.bind_eq_some.mp h
  replace h2 : Option.bind (writeHeader (data_offset 1) buf0)
      (fun buf1 => strLoop cs ⟨buf1, data_offset 1, (upper.getD lower + data_offset 1) % W⟩)
      = some t := h2
  obtain ⟨buf1, hwh, hloop⟩ := Option.bind_eq_some.mp h2
  replace hloop : strLoop cs ⟨buf1, data_offset 1, (upper.getD lower + data_offset 1) % W⟩
      = some t := hloop
  replace hwh : (if data_offset 1 ≤ 16 then
      writeBytes buf0 0 (headerImage.take (data_offset 1))
    else none) = some buf1 := hwh
  have h16 : data_offset 1 = 16 := by decide
  rw [if_pos (by rw [h16])] at hwh
  rw [h16] at hwh hloop
  rw [show headerImage.take 16 = headerImage from by decide] at hwh
  obtain ⟨hle, hbuf1⟩ := writeBytes_some hwh
  simp only [List.take_zero, List.nil_append, Nat.zero_add, headerImage_length] at hle hbuf1
  have htk : buf1.take 16 = headerImage := by
    rw [hbuf1]
    exact take16_headerImage _
  have hlen1 : 16 ≤ buf1.length := by
    rw [writeBytes_length hwh]
    exact hle
  obtain ⟨f1, f2, f3⟩ := strLoop_front cs
    ⟨buf1, 16, (upper.getD lower + 16) % W⟩ t hloop (le_refl 16) hlen1
  exact ⟨by rw [f1, htk], f2, f3⟩

lemma header_counts {s : RawState} (h : s.buf.take 16 = headerImage) :
    storedStrong s = 1 ∧ storedWeak s = 1 ∧
    reportedStrongCount s = 1 ∧ reportedWeakCount s = 0 := by
  have h8 : s.buf.take 8 = usizeBytes 1 := by
    have h2 : s.buf.take 8 = (s.buf.take 16).take 8 := by
      rw [List.take_take]
      norm_num
    rw [h2, h]
    decide
  have hw8 : (s.buf.drop 8).take 8 = usizeBytes 1 := by
    have h2 : List.drop 8 (List.take 16 s.buf) = List.take 8 (List.drop 8 s.buf) := by
      have h3 := List.drop_take 16 8 s.buf
      norm_num at h3
      exact h3
    show List.take 8 (List.drop 8 s.buf) = usizeBytes 1
    rw [← h2, h]
    decide
  refine ⟨?_, ?_, ?_, ?_⟩
  · show decodeUsize (s.buf.take 8) = 1
    rw [h8]
    decide
  · show decodeUsize ((s.buf.drop 8).take 8) = 1
    rw [hw8]
    decide
  · show decodeUsize (s.buf.take 8) = 1
    rw [h8]
    decide
  · show decodeUsize ((s.buf.drop 8).take 8) - 1 = 0
    rw [hw8]
    decide

lemma emptyConstruction (md cap : Nat) (hmd : md = 16) (hle : md ≤ cap)
    (hiz : cap + padding_needed cap 8 ≤ isizeMax) :
    ∃ buf1, allocCall cap = some (List.replicate (cap + padding_needed cap 8) 0) ∧
      writeHeader md (List.replicate (cap + padding_needed cap 8) 0) = some buf1 ∧
      finishTrim ⟨buf1, md, cap⟩ = some ⟨headerImage, md, cap⟩ := by
  subst hmd
  have halloc : allocCall cap = some (List.replicate (cap + padding_needed cap 8) 0) :=
    allocCall_eq (by omega) hiz
  have hwh : writeHeader 16 (List.replicate (cap + padding_needed cap 8) 0)
      = some (headerImage ++ List.drop 16 (List.replicate (cap + padding_needed cap 8) 0)) := by
    show (if (16 : Nat) ≤ 16 then
        writeBytes (List.replicate (cap + padding_needed cap 8) 0) 0 (headerImage.take 16)
      else none) = _
    rw [if_pos (le_refl 16), show headerImage.take 16 = headerImage from by decide,
      writeBytes_of_le (by simp only [List.length_replicate, headerImage_length]; omega)]
    simp only [List.take_zero, List.nil_append, Nat.zero_add, headerImage_length]
  refine ⟨_, halloc, hwh, ?_⟩
  by_cases hgt : 16 < cap
  · have hp16 : padding_needed 16 8 = 0 := by decide
    have hblen : (headerImage ++ List.drop 16
        (List.replicate (cap + padding_needed cap 8) 0)).length
        = cap + padding_needed cap 8 := by
      simp only [List.length_append, List.length_drop, List.length_replicate, headerImage_length]
      omega
    have hrc : reallocCall (headerImage ++ List.drop 16
          (List.replicate (cap + padding_needed cap 8) 0)) cap (16 + padding_needed 16 8)
        = some (reallocBytes (headerImage ++ List.drop 16
            (List.replicate (cap + padding_needed cap 8) 0)) (16 + padding_needed 16 8)) :=
      reallocCall_eq hiz hblen.symm (by decide) (by decide)
    have hrb : reallocBytes (headerImage ++ List.drop 16
        (List.replicate (cap + padding_needed cap 8) 0)) (16 + padding_needed 16 8)
        = headerImage := by
      rw [hp16, Nat.add_zero, reallocBytes_of_le _ 16 (by rw [hblen]; omega)]
      exact take16_headerImage _
    show (if cap > 16 then
        (reallocCall (headerImage ++ List.drop 16
            (List.replicate (cap + padding_needed cap 8) 0)) cap
          (16 + padding_needed 16 8)).map
          (fun b => ({ buf := b, len := 16, cap := cap } : RawState))
      else some ⟨headerImage ++ List.drop 16
        (List.replicate (cap + padding_needed cap 8) 0), 16, cap⟩) = some ⟨headerImage, 16, cap⟩
    rw [if_pos hgt, hrc, hrb]
    rfl
  · have hceq : cap = 16 := by omega
    subst hceq
    decide

/-! ### Claim theorems -/

/-- Claim C1.  The claim states that for every finite iterator of fixed-size
elements the collected handle's contents equal the produced items.  The code
violates it: for an element type of size 17 (e.g. `[u8; 17]`, alignment 1) and
an iterator with size hint `(0, None)` yielding one item, the initial capacity
is 16, the single doubling grows the allocation to only 32 bytes, and the
17-byte write at offset 16 runs 1 byte past the end of the allocation — a heap
buffer overflow (undefined behaviour), after which no well-defined handle
exists.  The embedding exhibits the failure: both collect operations abort at
the out-of-bounds write instead of producing the item. -/
theorem claim_C1 :
    collect_into_rc_slice 17 1 (fun _ : Unit => List.replicate 17 7) 0 none [()] = none ∧
    collect_into_arc_slice 17 1 (fun _ : Unit => List.replicate 17 7) 0 none [()] = none := by
  decide

/-- Claim C3.  The claim states that whenever the next write would exceed the
capacity, the doubled capacity is at minimum enough to fit the new write, so
that `len ≤ cap` holds at every step.  The code violates it: at the state
reached after the header write for a 17-byte element type with size hint
`(0, None)` (`len = cap = 16`), the growth step doubles the capacity to 32 —
the realloc itself is contract-clean here — yet the pending write ends at
byte 33: the post-growth capacity does not fit the write, the write is out of
bounds, and `len` would advance to 33 > 32. -/
theorem claim_C3 :
    collectSliceRaw 17 1 (fun _ : Unit => List.replicate 17 7) 0 none [()] = none ∧
    ensureGrow 17 ⟨headerImage, 16, 16⟩
      = some ⟨headerImage ++ List.replicate 16 0, 16, 32⟩ ∧
    (⟨headerImage, 16, 16⟩ : RawState).len + 17 = 33 ∧
    appendData (List.replicate 17 7) 17 ⟨headerImage, 16, 16⟩ = none := by
  decide

/-- Claim C5.  The claim states that the reported size hint never affects the
final contents, only the amount of reallocation.  The code violates it through
the same growth slip as C1/C3: for a 17-byte element type and the same single
produced item, the accurately hinted construction (hint `(1, Some 1)`) returns
the correct one-element slice while the `(0, None)`-hinted construction
overflows its allocation and has no defined result. -/
theorem claim_C5 :
    collect_into_rc_slice 17 1 (fun _ : Unit => List.replicate 17 7) 0 none [()]
      ≠ collect_into_rc_slice 17 1 (fun _ : Unit => List.replicate 17 7) 1 (some 1) [()] := by
  decide

/-- Claim C9.  The element-count expression `(len - metadata) / size_of::<T>()`
divides by `size_of::<T>()`, so for a zero-sized element type it divides by
zero (a panic in the source, `none` in the embedding): for every alignment,
every size hint and every item sequence, collecting an iterator of a
zero-sized type has no defined result. -/
theorem claim_C9 : ∀ (α : Type) (alignT : Nat) (enc : α → List Nat) (lower : Nat)
    (upper : Option Nat) (items : List α),
    collect_into_rc_slice 0 alignT enc lower upper items = none ∧
    collect_into_arc_slice 0 alignT enc lower upper items = none := by
  intro α alignT enc lower upper items
  have h : ∀ o : Option RawState, Option.bind o (sliceHandle 0 alignT) = none := by
    intro o
    cases o with
    | none => rfl
    | some s => rfl
  exact ⟨h (collectSliceFin 0 alignT enc lower upper items),
    h (collectSliceFin 0 alignT enc lower upper items)⟩

/-- Claim C10.  The by-reference adapters delegate to the by-value
implementation on the copied (respectively dereferenced) sequence, which is
the same sequence of scalar values with the same size hint, so both return
exactly the result of the by-value `collect_into_rc_str`. -/
theorem claim_C10 : ∀ (lower : Nat) (upper : Option Nat) (cs : List Nat),
    iterRef_collect_into_rc_str lower upper cs = collect_into_rc_str lower upper cs ∧
    iterRefMut_collect_into_rc_str lower upper cs = collect_into_rc_str lower upper cs := by
  intro lower upper cs
  exact ⟨congrArg (collect_into_rc_str lower upper) (List.map_id' cs),
    congrArg (collect_into_rc_str lower upper) (List.map_id' cs)⟩

/-- Claim C2.  The claim states that for every iterator of scalar values the
collected text handle is byte-identical to the UTF-8 encoding of the
concatenation.  The code violates it: with size hint `(1, None)` and the two
ASCII scalars of `"ab"`, the capacity starts at 17 (block of padded size 24),
one growth reallocates the block to exactly 34 bytes, and the trim then calls
`realloc` under the re-derived layout `Layout::from_size_align(34, 8).pad_to_align()`
of size 40 — not the layout of the 34-byte block — which is undefined
behaviour, so no handle is produced.  With size hint `(0, None)` every
re-derived layout happens to match the block and the same two scalars yield
exactly their UTF-8 bytes `[97, 98]`, which is what the claim expects. -/
theorem claim_C2 :
    collect_into_rc_str 1 none [97, 98] = none ∧
    collect_into_arc_str 1 none [97, 98] = none ∧
    collect_into_rc_str 0 none [97, 98] = some [97, 98] ∧
    ([97, 98].map encodeUtf8).flatten = [97, 98] := by
  decide

/-- Claim C4.  Whenever a collect operation completes, the finished allocation
stores `strong = 1` and `weak = 1` in its header (the header is written once
at the start and is never overwritten by element writes, growth reallocations
or the trim), so the publicly reported strong count is 1 and the publicly
reported weak count is `1 - 1 = 0`.  The slice and str parts cover all four
operations, the atomic variants being byte-identical. -/
theorem claim_C4 :
    (∀ (α : Type) (size alignT : Nat) (enc : α → List Nat) (lower : Nat) (upper : Option Nat)
        (items : List α) (s : RawState),
        collectSliceFin size alignT enc lower upper items = some s →
        storedStrong s = 1 ∧ storedWeak s = 1 ∧
        reportedStrongCount s = 1 ∧ reportedWeakCount s = 0) ∧
    (∀ (lower : Nat) (upper : Option Nat) (cs : List Nat) (s : RawState),
        collectStrFin lower upper cs = some s →
        storedStrong s = 1 ∧ storedWeak s = 1 ∧
        reportedStrongCount s = 1 ∧ reportedWeakCount s = 0) := by
  constructor
  · intro α size alignT enc lower upper items s h
    replace h : (collectSliceRaw size alignT enc lower upper items).bind finishTrim
        = some s := h
    obtain ⟨t, hraw, hfin⟩ := Option.bind_eq_some.mp h
    obtain ⟨hh, hlenb, hbl⟩ := collectSliceRaw_header hraw
    obtain ⟨hft, _⟩ := finishTrim_front hfin hlenb hbl
    exact header_counts (by rw [hft, hh])
  · intro lower upper cs s h
    replace h : (collectStrRaw lower upper cs).bind finishTrim = some s := h
    obtain ⟨t, hraw, hfin⟩ := Option.bind_eq_some.mp h
    obtain ⟨hh, hlenb, hbl⟩ := collectStrRaw_header hraw
    obtain ⟨hft, _⟩ := finishTrim_front hfin hlenb hbl
    exact header_counts (by rw [hft, hh])

/-- Witness for C4: a concrete one-element slice collection and a concrete
empty str collection, with the stored and reported counts evaluated. -/
theorem claim_C4_witness :
    (storedStrong ⟨headerImage, 16, 16⟩ = 1 ∧ storedWeak ⟨headerImage, 16, 16⟩ = 1 ∧
      reportedStrongCount ⟨headerImage, 16, 16⟩ = 1 ∧
      reportedWeakCount ⟨headerImage, 16, 16⟩ = 0) ∧
    (storedStrong ⟨headerImage, 16, 16⟩ = 1 ∧ storedWeak ⟨headerImage, 16, 16⟩ = 1 ∧
      reportedStrongCount ⟨headerImage, 16, 16⟩ = 1 ∧
      reportedWeakCount ⟨headerImage, 16, 16⟩ = 0) := by
  constructor
  · exact claim_C4.1 Unit 1 1 (fun _ => [7]) 0 none [] ⟨headerImage, 16, 16⟩ (by decide)
  · exact claim_C4.2 0 none [] ⟨headerImage, 16, 16⟩ (by decide)

/-- Claim C6.  For every `len < 2^64` and every power-of-two alignment,
`padding_needed len align` is the least `p ≥ 0` with `(len + p) % align = 0`
(the wrapping arithmetic of the formula never changes the result because the
alignment divides `2^64`), and `data_offset` is the header size 16 plus the
padding needed to align the payload. -/
theorem claim_C6 : ∀ (len k : Nat), len < W → k ≤ 64 →
    (padding_needed len (2 ^ k) < 2 ^ k ∧
     (len + padding_needed len (2 ^ k)) % 2 ^ k = 0 ∧
     (∀ q : Nat, (len + q) % 2 ^ k = 0 → padding_needed len (2 ^ k) ≤ q)) ∧
    (∀ alignT : Nat, data_offset alignT = 16 + padding_needed 16 alignT) := by
  intro len k hlen hk
  obtain ⟨h0, hlt⟩ := padding_needed_spec len k hlen hk
  exact ⟨⟨hlt, h0, fun q hq => padding_needed_min len k q hlen hk hq⟩, fun _ => rfl⟩

/-- Witness for C6: `padding_needed 13 8 = 3` is below 8 and completes 13 to a
multiple of 8. -/
theorem claim_C6_witness :
    padding_needed 13 (2 ^ 3) < 2 ^ 3 ∧ (13 + padding_needed 13 (2 ^ 3)) % 2 ^ 3 = 0 := by
  have h := (claim_C6 13 3 (by decide) (by decide)).1
  exact ⟨h.1, h.2.1⟩

/-- Claim C7.  The claim states that whenever `cap > len` at exhaustion the
allocation is reallocated down to exactly `len` plus the alignment padding.
The code violates it: collecting three one-byte elements under size hint
`(1, None)` starts with `cap = 17` (block of padded size 24), one growth
reallocates the block to exactly 34 bytes, the loop ends with `len = 19 <
cap = 34`, and the trim then calls `realloc` under the re-derived layout
`Layout::from_size_align(34, 8).pad_to_align()` of size 40 — not the layout
of the 34-byte block — which is undefined behaviour: no defined trimmed
allocation exists at this reachable state. -/
theorem claim_C7 :
    collectSliceRaw 1 1 (fun _ : Unit => [7]) 1 none [(), (), ()]
      = some ⟨headerImage ++ [7, 7, 7] ++ List.replicate 15 0, 19, 34⟩ ∧
    (19 : Nat) < 34 ∧
    (34 : Nat) + padding_needed 34 8 = 40 ∧
    (headerImage ++ [7, 7, 7] ++ List.replicate 15 0).length = 34 ∧
    finishTrim ⟨headerImage ++ [7, 7, 7] ++ List.replicate 15 0, 19, 34⟩ = none ∧
    collectSliceFin 1 1 (fun _ : Unit => [7]) 1 none [(), (), ()] = none := by
  decide

/-- Helper for C8: for a positive element size, the handle read off an
allocation holding only the header is the empty slice with count 0. -/
lemma sliceHandle_empty (size alignT cap : Nat) (hsize : 0 < size) :
    sliceHandle size alignT ⟨headerImage, data_offset alignT, cap⟩ = some ([], 0) := by
  show (if size = 0 then none
    else some (List.take ((data_offset alignT - data_offset alignT) / size * size)
        (List.drop (data_offset alignT) headerImage),
      (data_offset alignT - data_offset alignT) / size)) = some ([], 0)
  rw [if_neg (by omega)]
  simp only [Nat.sub_self, Nat.zero_div, Nat.zero_mul, List.take_zero]

/-- Claim C8.  An iterator yielding zero items still allocates at least the
header (`payload_offset` bytes), the construction trims the allocation to
exactly the header, and the returned handle has zero elements (slice variant:
count 0 and empty contents; str variant: the empty string) backed by a valid
16-byte allocation.  Stated for every element type whose payload offset is the
plain header size (every alignment up to 16) and positive size, and for every
size hint whose capacity computation stays within `isize::MAX` (so the
`usize` multiplication does not wrap and the initial layout exists). -/
theorem claim_C8 : ∀ (α : Type) (size alignT : Nat) (enc : α → List Nat) (lower : Nat)
    (upper : Option Nat), data_offset alignT = 16 → 0 < size →
    (upper.getD lower * size + data_offset alignT)
      + padding_needed (upper.getD lower * size + data_offset alignT) 8 ≤ isizeMax →
    (upper.getD lower + data_offset 1)
      + padding_needed (upper.getD lower + data_offset 1) 8 ≤ isizeMax →
    collect_into_rc_slice size alignT enc lower upper ([] : List α) = some ([], 0) ∧
    (∃ s, collectSliceFin size alignT enc lower upper ([] : List α) = some s ∧
      s.buf = headerImage ∧ s.len = 16 ∧ s.buf.length = data_offset alignT) ∧
    collect_into_rc_str lower upper [] = some [] ∧
    (∃ s, collectStrFin lower upper [] = some s ∧
      s.buf = headerImage ∧ s.len = 16 ∧ s.buf.length = data_offset 1) := by
  intro α size alignT enc lower upper h16 hsize hSW hTW
  have hWnum : W = 18446744073709551616 := by decide
  have hINum : isizeMax = 9223372036854775807 := by decide
  have hSmod : (upper.getD lower * size + data_offset alignT) % W
      = upper.getD lower * size + data_offset alignT :=
    Nat.mod_eq_of_lt (by omega)
  have hTmod : (upper.getD lower + data_offset 1) % W
      = upper.getD lower + data_offset 1 :=
    Nat.mod_eq_of_lt (by omega)
  obtain ⟨buf1, halloc, hwh, htrim⟩ := emptyConstruction (data_offset alignT)
    (upper.getD lower * size + data_offset alignT) h16 (Nat.le_add_left _ _) hSW
  have hraw : collectSliceRaw size alignT enc lower upper ([] : List α)
      = some ⟨buf1, data_offset alignT, upper.getD lower * size + data_offset alignT⟩ := by
    show Option.bind (allocCall ((upper.getD lower * size + data_offset alignT) % W))
        (fun buf0 => Option.bind (writeHeader (data_offset alignT) buf0)
          (fun b1 => sliceLoop size enc []
            ⟨b1, data_offset alignT,
              (upper.getD lower * size + data_offset alignT) % W⟩)) = _
    rw [hSmod, halloc, bind_some_eq, hwh, bind_some_eq]
    rfl
  have hfin : collectSliceFin size alignT enc lower upper ([] : List α)
      = some ⟨headerImage, data_offset alignT,
          upper.getD lower * size + data_offset alignT⟩ := by
    show (collectSliceRaw size alignT enc lower upper ([] : List α)).bind finishTrim = _
    rw [hraw, bind_some_eq, htrim]
  have hslice : collect_into_rc_slice size alignT enc lower upper ([] : List α)
      = some ([], 0) := by
    show Option.bind (collectSliceFin size alignT enc lower upper ([] : List α))
      (sliceHandle size alignT) = some ([], 0)
    rw [hfin]
    exact sliceHandle_empty size alignT _ hsize
  obtain ⟨buf1', halloc', hwh', htrim'⟩ := emptyConstruction (data_offset 1)
    (upper.getD lower + data_offset 1) (by decide) (Nat.le_add_left _ _) hTW
  have hraw' : collectStrRaw lower upper []
      = some ⟨buf1', data_offset 1, upper.getD lower + data_offset 1⟩ := by
    show Option.bind (allocCall ((upper.getD lower + data_offset 1) % W))
        (fun buf0 => Option.bind (writeHeader (data_offset 1) buf0)
          (fun b1 => strLoop []
            ⟨b1, data_offset 1, (upper.getD lower + data_offset 1) % W⟩)) = _
    rw [hTmod, halloc', bind_some_eq, hwh', bind_some_eq]
    rfl
  have hfin' : collectStrFin lower upper []
      = some ⟨headerImage, data_offset 1, upper.getD lower + data_offset 1⟩ := by
    show (collectStrRaw lower upper []).bind finishTrim = _
    rw [hraw', bind_some_eq, htrim']
  have hstr : collect_into_rc_str lower upper [] = some [] := by
    show (collectStrFin lower upper []).map
      (fun s => List.take (s.len - data_offset 1) (List.drop (data_offset 1) s.buf)) = some []
    rw [hfin']
    show some (List.take (data_offset 1 - data_offset 1)
      (List.drop (data_offset 1) headerImage)) = some []
    simp only [Nat.sub_self, List.take_zero]
  have hl1 : (headerImage : List Nat).length = data_offset alignT := by
    rw [h16]
    exact headerImage_length
  have hl2 : (headerImage : List Nat).length = data_offset 1 := by
    rw [show data_offset 1 = 16 from by decide]
    exact headerImage_length
  have hl3 : data_offset 1 = 16 := by decide
  exact ⟨hslice, ⟨_, hfin, rfl, h16, hl1⟩, hstr, ⟨_, hfin', rfl, hl3, hl2⟩⟩

/-- Witness for C8: elements of size 4 and alignment 4, size hint `(5, None)`,
empty iterator; both capacity computations (36 and 21 bytes) are far below
`isize::MAX`. -/
theorem claim_C8_witness :
    collect_into_rc_slice 4 4 (fun _ : Unit => [0, 0, 0, 0]) 5 none [] = some ([], 0) := by
  exact (claim_C8 Unit 4 4 (fun _ => [0, 0, 0, 0]) 5 none
    (by decide) (by decide) (by decide) (by decide)).1

/-- Counterexample for C8 as stated for every element type and every size
hint: an empty iterator of a zero-sized type panics on the element-count
division by zero instead of returning a zero-element handle; an empty
iterator of an alignment-32 type (payload offset 32) makes the header copy
read past the end of the 16-byte header temporary; and an upper size hint of
`2 ^ 64 - 12` for a one-byte type wraps the `usize` capacity computation to
4 bytes, so the 16-byte header copy overflows the 8-byte padded block —
in each case no handle is returned. -/
theorem claim_C8_counterexample :
    collect_into_rc_slice 0 1 (fun _ : Unit => []) 0 none [] = none ∧
    collect_into_rc_slice 4 32 (fun _ : Unit => [0, 0, 0, 0]) 0 none [] = none ∧
    collect_into_rc_slice 1 1 (fun _ : Unit => [0]) 0 (some (2 ^ 64 - 12)) [] = none := by
  decide
